import Mathlib

/-
Verification of the call-site argument binder of jedi/evaluate/param.py.

The embedding mirrors the source file:
  - `PNode` models parso tree nodes (only the fields the binder reads:
    the node type, an identity, and the parent link used by
    `_add_argument_issue`).
  - `Value` / `LazyContext` model the lazy-context hierarchy:
    `LazyKnownContext` (wrapping `FakeSequence` / `FakeDict` or an opaque
    externally produced value), `LazyTreeContext` (a scope paired with a
    syntax node) and `LazyUnknownContext`.  Scopes/contexts are opaque and
    modelled as `Nat` identities.
  - `Param`, `Funcdef`, `VarArgs`, `ExecutionContext` model the inputs;
    `var_args.unpack(funcdef)` is the `unpacked` list and
    `var_args.get_calling_nodes()` the `callingNodes` list.
  - `analysis.add` is modelled by appending a `Diag` record to an explicit
    diagnostics list threaded through the state.
  - The `PushBackIterator` over the unpacked arguments is modelled by the
    `stream` list inside `BindState`; `push_back` is a cons onto it.
-/

/-- Model of a parso syntax node: its `type` string, an identity, and the
parent link. Only `node.parent.type` and the parent node itself are read by
the source (`_add_argument_issue`), so one level of the parent chain is
enough for every observable of the binder. -/
inductive PNode : Type where
  | mk (typ : String) (ident : Nat) (parent : Option PNode)
deriving Repr

/-- The `type` field of a node. -/
def PNode.typ : PNode → String
  | .mk t _ _ => t

/-- The parent link of a node. -/
def PNode.parentNode : PNode → Option PNode
  | .mk _ _ p => p

mutual
/-- Values that can sit inside a `LazyKnownContext`: the `FakeSequence` and
`FakeDict` containers built by the binder (`iterable.FakeSequence(evaluator,
u'tuple', list)` and `iterable.FakeDict(evaluator, dict)`), or an opaque
externally produced value. -/
inductive Value : Type where
  | fakeSequence (evalId : Nat) (typ : String) (items : List LazyContext)
  | fakeDict (evalId : Nat) (entries : List (String × LazyContext))
  | base (ident : Nat)

/-- The lazy-context union of `jedi.evaluate.lazy_context`:
`LazyKnownContext(value)`, `LazyTreeContext(context, node)` and
`LazyUnknownContext()`. -/
inductive LazyContext : Type where
  | known (v : Value)
  | tree (scope : Nat) (data : PNode)
  | unknown
end

/-- A formal parameter node, as read by the binder: `param.name.value`,
`param.star_count` and `param.default` (the default expression node or
`None`). -/
structure Param where
  name : String
  starCount : Nat
  default : Option PNode

/-- A function definition node: `funcdef.name` (rendered as a string in the
error messages) and `funcdef.get_params()`. -/
structure Funcdef where
  name : String
  params : List Param

/-- One item of the unpacked argument stream: the optional keyword name and
the lazy context, exactly the pairs yielded by `var_args.unpack(funcdef)`. -/
abbrev Arg := Option String × LazyContext

/-- The `var_args` collaborator: `unpack(funcdef)` is materialised as the
`unpacked` list and `get_calling_nodes()` as `callingNodes`. -/
structure VarArgs where
  unpacked : List Arg
  callingNodes : List PNode

/-- The execution context of the call being bound: its `tree_node` (the
funcdef), `function_context.get_default_param_context()` (the scope defaults
are evaluated in), `parent_context` (used by `create_default_params`) and the
evaluator identity passed to the container constructors. -/
structure ExecutionContext where
  funcdef : Funcdef
  defaultParamContext : Nat
  parentContext : Nat
  evalId : Nat

/-- `ExecutedParam(execution_context, param_node, lazy_context)`: the bound
parameter object (the execution context is common to the whole pass and is
kept outside). -/
structure ExecutedParam where
  paramNode : Param
  lazyContext : LazyContext

/-- `self.string_name = param_node.name.value`. -/
def ExecutedParam.string_name (ep : ExecutedParam) : String :=
  ep.paramNode.name

/-- One diagnostic recorded by `analysis.add(parent_context, error_name,
node, message)`. -/
structure Diag where
  context : Nat
  errorName : String
  node : PNode
  message : String

/-- A single-quote character, used in the error message templates. -/
def apos : String := String.singleton (Char.ofNat 39)

/-- `"TypeError: %s() got multiple values for keyword argument '%s'."` -/
def multiple_values_message (funcName key : String) : String :=
  "TypeError: " ++ funcName ++ "() got multiple values for keyword argument "
    ++ apos ++ key ++ apos ++ "."

/-- `"TypeError: %s() got an unexpected keyword argument '%s'."` -/
def unexpected_keyword_message (funcName key : String) : String :=
  "TypeError: " ++ funcName ++ "() got an unexpected keyword argument "
    ++ apos ++ key ++ apos ++ "."

/-- `_error_argument_count(funcdef, actual_count)`. -/
def error_argument_count (fd : Funcdef) (actualCount : Nat) : String :=
  let params := fd.params
  let defaultArguments :=
    (params.filter (fun p => p.default.isSome || p.starCount != 0)).length
  let before :=
    if defaultArguments == 0 then "exactly "
    else "from " ++ toString (params.length - defaultArguments) ++ " to "
  "TypeError: " ++ fd.name ++ "() takes " ++ before ++ toString params.length
    ++ " arguments (" ++ toString actualCount ++ " given)."

/-- `_add_argument_issue(parent_context, error_name, lazy_context, message)`:
emits a diagnostic only when the lazy context is a `LazyTreeContext`, moving
the anchor up to `node.parent` when the parent is an `argument` node. -/
def add_argument_issue (parentContext : Nat) (errorName : String)
    (lazyContext : LazyContext) (message : String) : List Diag :=
  match lazyContext with
  | .tree _ data =>
      let node :=
        match data.parentNode with
        | some p => if p.typ == "argument" then p else data
        | none => data
      [⟨parentContext, errorName, node, message⟩]
  | _ => []

/-- Insert-or-overwrite on an insertion-ordered association list: the model
of a Python `dict` assignment `d[k] = v`. -/
def dictInsert {α : Type} (d : List (String × α)) (k : String) (v : α) :
    List (String × α) :=
  if d.any (fun p => p.fst == k) then
    d.map (fun p => if p.fst == k then (k, v) else p)
  else
    d ++ [(k, v)]

/-- Lookup on the association list: the model of `d[k]` / `k in d`. -/
def dictLookup {α : Type} (d : List (String × α)) (k : String) : Option α :=
  (d.find? (fun p => p.fst == k)).map Prod.snd

/-- `param_dict`: `for param in funcdef.get_params(): param_dict[param.name.value] = param`. -/
def paramDictOf (fd : Funcdef) : List (String × Param) :=
  fd.params.foldl (fun d p => dictInsert d p.name p) []

/-- The mutable state of `get_executed_params`: the pushback iterator's
remaining stream and the accumulator variables of the loop, plus the
diagnostics recorded so far through `analysis.add`. -/
structure BindState where
  stream : List Arg
  nonMatchingKeys : List (String × LazyContext)
  keysUsed : List (String × ExecutedParam)
  keysOnly : Bool
  hadMultipleValueError : Bool
  resultParams : List ExecutedParam
  diags : List Diag

/-- The keyword-draining loop (lines 84-101 of param.py):
`key, argument = next(var_arg_iterator, (None, None))` followed by
`while key is not None: ...`.  Returns the `argument` local at loop exit
(`none` when the iterator was exhausted, `some a` when an unnamed item
terminated the loop — note that this item has been taken off the stream and
is NOT pushed back) together with the updated state. -/
def drain (ec : ExecutionContext) (paramDict : List (String × Param))
    (va : VarArgs) : List Arg → BindState → Option LazyContext × BindState
  | [], st => (none, { st with stream := [] })
  | (none, a) :: rest, st => (some a, { st with stream := rest })
  | (some k, a) :: rest, st =>
      let st := { st with keysOnly := true }
      let st :=
        match dictLookup paramDict k with
        | none =>
            { st with nonMatchingKeys := dictInsert st.nonMatchingKeys k a }
        | some keyParam =>
            if (dictLookup st.keysUsed k).isSome then
              { st with
                hadMultipleValueError := true,
                diags := st.diags ++ va.callingNodes.map (fun n =>
                  ⟨ec.defaultParamContext, "type-error-multiple-values", n,
                   multiple_values_message ec.funcdef.name k⟩) }
            else
              { st with keysUsed := dictInsert st.keysUsed k ⟨keyParam, a⟩ }
      drain ec paramDict va rest st

/-- Python truthiness of the key in `for key, argument in var_arg_iterator:
if key:` — `None` and the empty string are falsy. -/
def keyTruthy : Option String → Bool
  | none => false
  | some s => !(s == "")

/-- The `*args` collection loop (lines 114-119): iterate until a truthy key
is found, pushing that item back; returns the collected lazy contexts and
the remaining stream. -/
def collectPositional : List Arg → List LazyContext × List Arg
  | [] => ([], [])
  | (k, a) :: rest =>
      if keyTruthy k then ([], (k, a) :: rest)
      else
        let (xs, rem) := collectPositional rest
        (a :: xs, rem)

/-- Lines 143-145: append the freshly built `ExecutedParam` and, unless the
result is a `LazyUnknownContext`, record it in `keys_used`. -/
def finishParam (st : BindState) (param : Param) (resultArg : LazyContext) :
    BindState :=
  let ep : ExecutedParam := ⟨param, resultArg⟩
  let st := { st with resultParams := st.resultParams ++ [ep] }
  match resultArg with
  | .unknown => st
  | _ => { st with keysUsed := dictInsert st.keysUsed param.name ep }

/-- One iteration of the main `for param in funcdef.get_params():` loop
(lines 79-145): keyword draining, the `keys_used` short-circuit, then the
`*args` / `**kwargs` / normal-parameter branches. -/
def processParam (ec : ExecutionContext) (paramDict : List (String × Param))
    (va : VarArgs) (st : BindState) (param : Param) : BindState :=
  let (argOpt, st) := drain ec paramDict va st.stream st
  match dictLookup st.keysUsed param.name with
  | some ep =>
      -- `result_params.append(keys_used[param.name.value]); continue`
      -- (the `argument` local holding an unnamed terminator is dropped).
      { st with resultParams := st.resultParams ++ [ep] }
  | none =>
      if param.starCount == 1 then
        let (lazyContextList, st) :=
          match argOpt with
          | none => (([] : List LazyContext), st)
          | some a =>
              let (more, rem) := collectPositional st.stream
              (a :: more, { st with stream := rem })
        finishParam st param
          (.known (.fakeSequence ec.evalId "tuple" lazyContextList))
      else if param.starCount == 2 then
        let dct := Value.fakeDict ec.evalId st.nonMatchingKeys
        let st := { st with nonMatchingKeys := [] }
        finishParam st param (.known dct)
      else
        match argOpt with
        | none =>
            match param.default with
            | none =>
                let st :=
                  if st.keysOnly then st
                  else
                    { st with diags := st.diags ++ va.callingNodes.map (fun n =>
                        ⟨ec.defaultParamContext, "type-error-too-few-arguments",
                         n, error_argument_count ec.funcdef va.unpacked.length⟩) }
                finishParam st param .unknown
            | some d =>
                finishParam st param (.tree ec.defaultParamContext d)
        | some a => finishParam st param a

/-- The initial state: the full unpacked stream, empty accumulators. -/
def initState (va : VarArgs) : BindState :=
  ⟨va.unpacked, [], [], false, false, [], []⟩

/-- The main loop of `get_executed_params` folded over the formal
parameters. -/
def bindLoop (ec : ExecutionContext) (va : VarArgs) : BindState :=
  ec.funcdef.params.foldl (processParam ec (paramDictOf ec.funcdef) va)
    (initState va)

/-- One step of the consolidated too-few pass (lines 151-160): for a
missing key, look up its parameter and, unless a more specific diagnostic
already explains the call (`non_matching_keys` nonempty, a multiple-value
error, a star count or a default), record a too-few diagnostic per calling
node. -/
def consolidatedTooFewStep (ec : ExecutionContext)
    (paramDict : List (String × Param)) (va : VarArgs) (st : BindState)
    (k : String) : BindState :=
  match dictLookup paramDict k with
  | none => st
  | some param =>
      if !(!st.nonMatchingKeys.isEmpty || st.hadMultipleValueError ||
           param.starCount != 0 || param.default.isSome) then
        { st with diags := st.diags ++ va.callingNodes.map (fun n =>
            ⟨ec.defaultParamContext, "type-error-too-few-arguments", n,
             error_argument_count ec.funcdef va.unpacked.length⟩) }
      else st

/-- Lines 147-160: the consolidated too-few pass under `keys_only`, over
`set(param_dict) - set(keys_used)`. -/
def finalizeTooFew (ec : ExecutionContext) (paramDict : List (String × Param))
    (va : VarArgs) (st : BindState) : BindState :=
  if st.keysOnly then
    ((paramDict.map Prod.fst).filter
        (fun k => (dictLookup st.keysUsed k).isNone)).foldl
      (consolidatedTooFewStep ec paramDict va) st
  else st

/-- One step of the unexpected-keyword pass (lines 162-170). -/
def nonMatchingStep (ec : ExecutionContext) (st : BindState)
    (kv : String × LazyContext) : BindState :=
  { st with diags := st.diags ++
      (add_argument_issue ec.defaultParamContext
        "type-error-keyword-argument" kv.snd
        (unexpected_keyword_message ec.funcdef.name kv.fst)) }

/-- Lines 162-170: the unexpected-keyword pass over `non_matching_keys`. -/
def finalizeNonMatching (ec : ExecutionContext) (st : BindState) : BindState :=
  st.nonMatchingKeys.foldl (nonMatchingStep ec) st

/-- Lines 172-185: the too-many check on the leftover stream (the first
leftover only, and only when the calling context exposes call nodes). -/
def finalizeRemaining (ec : ExecutionContext) (va : VarArgs)
    (st : BindState) : BindState :=
  match st.stream with
  | [] => st
  | (_, lazyContext) :: _ =>
      if va.callingNodes.isEmpty then st
      else
        { st with diags := st.diags ++
            (add_argument_issue ec.defaultParamContext
              "type-error-too-many-arguments" lazyContext
              (error_argument_count ec.funcdef va.unpacked.length)) }

/-- The post-loop code of `get_executed_params` (lines 147-185): the
consolidated too-few pass under `keys_only`, the unexpected-keyword pass over
`non_matching_keys`, and the too-many check on the leftover stream. -/
def finalize (ec : ExecutionContext) (paramDict : List (String × Param))
    (va : VarArgs) (st : BindState) : BindState :=
  finalizeRemaining ec va (finalizeNonMatching ec (finalizeTooFew ec paramDict va st))

/-- `get_executed_params(execution_context, var_args)`: the bound-parameter
list in signature order together with the diagnostics recorded during the
pass. -/
def get_executed_params (ec : ExecutionContext) (va : VarArgs) :
    List ExecutedParam × List Diag :=
  let st := finalize ec (paramDictOf ec.funcdef) va (bindLoop ec va)
  (st.resultParams, st.diags)

/-- `ExecutedParam.matches_signature`, the external collaborators abstracted
as functions: `inferNoHints` is `self.infer(use_hints=False).py__class__()`
(forcing the bound lazy context without hints and taking the class set),
`inferAnnotations` is `self.infer_annotations()`, and `isSubClassOf` is
`ContextSet.is_sub_class_of`.  Classes are opaque `Nat` identities. -/
def ExecutedParam.matches_signature (inferNoHints : LazyContext → List Nat)
    (inferAnnotations : Param → List Nat) (isSubClassOf : Nat → Nat → Bool)
    (self : ExecutedParam) : Bool :=
  let argumentContexts := inferNoHints self.lazyContext
  if self.paramNode.starCount != 0 then true
  else
    let annotations := inferAnnotations self.paramNode
    if annotations.isEmpty then true
    else argumentContexts.any (fun c1 =>
      annotations.any (fun c2 => isSubClassOf c1 c2))

/-- `_create_default_param(execution_context, param)`. -/
def create_default_param (ec : ExecutionContext) (param : Param) :
    ExecutedParam :=
  if param.starCount == 1 then
    ⟨param, .known (.fakeSequence ec.evalId "tuple" [])⟩
  else if param.starCount == 2 then
    ⟨param, .known (.fakeDict ec.evalId [])⟩
  else
    match param.default with
    | none => ⟨param, .unknown⟩
    | some d => ⟨param, .tree ec.parentContext d⟩

/-- `create_default_params(execution_context, funcdef)`; the second component
is the list of diagnostics this path records through `analysis.add`, which is
empty since the function never calls the sink. -/
def create_default_params (ec : ExecutionContext) (fd : Funcdef) :
    List ExecutedParam × List Diag :=
  (fd.params.map (create_default_param ec), [])

/-! Observers used by the specification statements. -/

/-- Constructor tag of a lazy context: 0 for a known value, 1 for a
tree-backed (syntax) context, 2 for the unknown context. -/
def LazyContext.tag : LazyContext → Nat
  | .known _ => 0
  | .tree _ _ => 1
  | .unknown => 2

/-- Whether a lazy context is a `LazyTreeContext` (syntax-backed). -/
def LazyContext.isTreeBacked : LazyContext → Bool
  | .tree _ _ => true
  | _ => false

/-- Whether a lazy context is a known value wrapping a `FakeSequence`. -/
def LazyContext.isKnownSequence : LazyContext → Bool
  | .known (.fakeSequence _ _ _) => true
  | _ => false

/-- Number of diagnostics carrying a given error name. -/
def diagCount (name : String) (ds : List Diag) : Nat :=
  (ds.filter (fun d => d.errorName == name)).length

/-- The invariant that every entry of `keys_used` stores an `ExecutedParam`
whose parameter is named by its key. -/
def KeysInv (d : List (String × ExecutedParam)) : Prop :=
  ∀ p ∈ d, (Prod.snd p).paramNode.name = p.fst

/-- The invariant that every entry of `param_dict` stores a parameter named
by its key. -/
def PDInv (d : List (String × Param)) : Prop :=
  ∀ p ∈ d, (Prod.snd p).name = p.fst

/-! Concrete call scenarios used by counterexamples and witnesses. -/

/-- A concrete calling node. -/
def callNode : PNode := .mk "call" 0 none

/-- A known, externally produced argument value. -/
def baseArg (n : Nat) : LazyContext := .known (.base n)

/-- `def f(x, y)` with no defaults. -/
def fdXY : Funcdef := ⟨"f", [⟨"x", 0, none⟩, ⟨"y", 0, none⟩]⟩

/-- Execution context for `fdXY`. -/
def ecXY : ExecutionContext := ⟨fdXY, 10, 11, 0⟩

/-- The stream of `f(1, y=2, x=3)`. -/
def vaC5 : VarArgs :=
  ⟨[(none, baseArg 1), (some "y", baseArg 2), (some "x", baseArg 3)], [callNode]⟩

/-- The stream `[x=1, unnamed 2]` (splat-produced order). -/
def vaC2 : VarArgs := ⟨[(some "x", baseArg 1), (none, baseArg 2)], [callNode]⟩

/-- `def f(x, y, z)` with no defaults. -/
def fdXYZ : Funcdef := ⟨"f", [⟨"x", 0, none⟩, ⟨"y", 0, none⟩, ⟨"z", 0, none⟩]⟩

/-- Execution context for `fdXYZ`. -/
def ecXYZ : ExecutionContext := ⟨fdXYZ, 10, 11, 0⟩

/-- The stream of `f(x=1)`. -/
def vaC3 : VarArgs := ⟨[(some "x", baseArg 1)], [callNode]⟩

/-- `def f(*args)`. -/
def fdStar : Funcdef := ⟨"f", [⟨"args", 1, none⟩]⟩

/-- Execution context for `fdStar`. -/
def ecStar : ExecutionContext := ⟨fdStar, 10, 11, 0⟩

/-- The stream of `f(args=7)`: a named argument whose name equals the
`*args` parameter's name. -/
def vaC4 : VarArgs := ⟨[(some "args", baseArg 7)], []⟩

/-- `def f(x)`. -/
def fdX : Funcdef := ⟨"f", [⟨"x", 0, none⟩]⟩

/-- Execution context for `fdX`. -/
def ecX : ExecutionContext := ⟨fdX, 10, 11, 0⟩

/-- The stream of `f(1, 2, 3)` with known-value (non-syntax) lazy
contexts. -/
def vaC6 : VarArgs :=
  ⟨[(none, baseArg 1), (none, baseArg 2), (none, baseArg 3)], [callNode]⟩

/-- The stream `[q=1, unnamed 2, unnamed 3]` with known-value lazy
contexts: an orphan keyword plus a leftover, with a calling node present. -/
def vaC10 : VarArgs :=
  ⟨[(some "q", baseArg 1), (none, baseArg 2), (none, baseArg 3)], [callNode]⟩

/-- The executed param recorded for `x` during keyword draining in the C2
witness scenario. -/
def c2wEp : ExecutedParam := ⟨⟨"x", 0, none⟩, baseArg 1⟩

/-- A loop state in which `x` is already bound by name and an unnamed item
is next on the stream. -/
def c2wSt : BindState :=
  ⟨[(none, baseArg 2)], [], [("x", c2wEp)], true, false, [], []⟩

/-- A purely positional one-item stream with no calling nodes. -/
def vaPos1 : VarArgs := ⟨[(none, baseArg 1)], []⟩

/-- An empty stream with one calling node. -/
def vaNode : VarArgs := ⟨[], [callNode]⟩

/-- A concrete default-expression node. -/
def defaultNode : PNode := .mk "number" 42 none

/-- A signature mixing plain, `*args`, `**kwargs` and defaulted
parameters. -/
def fdMix : Funcdef :=
  ⟨"f", [⟨"a", 0, none⟩, ⟨"args", 1, none⟩, ⟨"kw", 2, none⟩,
         ⟨"b", 0, some defaultNode⟩]⟩

/-- A concrete hint-free class-set oracle. -/
def c8InferNoHints : LazyContext → List Nat := fun _ => [3]

/-- A concrete annotation oracle. -/
def c8Annots : Param → List Nat := fun _ => [4]

/-- A concrete subclass relation. -/
def c8Sub : Nat → Nat → Bool := fun a b => a + 1 == b

/-- C5: binding the stream `[unnamed 1, y=2, x=3]` against `def f(x, y)`
emits one multiple-values (duplicate keyword) diagnostic for `x`, the binding
retained for `x` is the first one seen (the positional `1`, the keyword
`x=3` being discarded), and `y` binds `2`. -/
theorem C5_keyword_override :
    get_executed_params ecXY vaC5 =
      ([⟨⟨"x", 0, none⟩, .known (.base 1)⟩, ⟨⟨"y", 0, none⟩, .known (.base 2)⟩],
       [⟨10, "type-error-multiple-values", callNode,
         multiple_values_message "f" "x"⟩]) := rfl

/-- C2 counterexample: binding `[x=1, unnamed 2]` against `def f(x, y)`
leaves `y` bound to `Unknown`: the unnamed item `2` that terminated the
keyword drain is consumed and discarded when `x` is bound from `keys_used`,
contradicting the claim that it remains available and would be bound to
`y`. -/
theorem C2_counterexample :
    (get_executed_params ecXY vaC2).fst.map (fun ep => ep.lazyContext) =
      [.known (.base 1), .unknown] ∧
    ¬ ((get_executed_params ecXY vaC2).fst.map (fun ep => ep.lazyContext) =
      [.known (.base 1), .known (.base 2)]) :=
  ⟨rfl, fun h => absurd (congrArg (List.map LazyContext.tag) h) (by decide)⟩

/-- C3 counterexample: binding `[x=1]` against `def f(x, y, z)` with one
calling node emits two consolidated too-few-arguments diagnostics (one per
missing required parameter), contradicting the at-most-one claim.  No
immediate too-few diagnostic is possible here since keyword mode is entered
by the very first stream item. -/
theorem C3_counterexample :
    diagCount "type-error-too-few-arguments"
      (get_executed_params ecXYZ vaC3).snd = 2 ∧
    ¬ (diagCount "type-error-too-few-arguments"
      (get_executed_params ecXYZ vaC3).snd ≤ 1) := by
  constructor
  · rfl
  · decide

/-- C4 counterexample: binding `[args=7]` against `def f(*args)` binds
`args` to the raw pass-through argument value (the named argument was
recorded in `keys_used` during keyword draining), not to a `FromKnownValue`
sequence, contradicting the claim. -/
theorem C4_counterexample :
    (get_executed_params ecStar vaC4).fst.map (fun ep => ep.lazyContext) =
      [.known (.base 7)] ∧
    ¬ (∃ items, (get_executed_params ecStar vaC4).fst.map
          (fun ep => ep.lazyContext) =
        [.known (.fakeSequence ecStar.evalId "tuple" items)]) := by
  refine ⟨rfl, fun h => ?_⟩
  obtain ⟨items, h⟩ := h
  have h2 : ([.known (.base 7)] : List LazyContext) =
      [.known (.fakeSequence ecStar.evalId "tuple" items)] :=
    Eq.trans (by rfl) h
  injection h2 with h3 _
  injection h3 with h4
  injection h4

/-- C6 counterexample: binding `f(1, 2, 3)` against `def f(x)` with
known-value (non-syntax-backed) lazy contexts leaves two unconsumed items
and the calling context exposes a concrete call node, yet no
too-many-arguments diagnostic is emitted, contradicting the claim that
exactly one is emitted whenever leftovers exist. -/
theorem C6_counterexample :
    (bindLoop ecX vaC6).stream.length = 2 ∧
    vaC6.callingNodes.length = 1 ∧
    diagCount "type-error-too-many-arguments"
      (get_executed_params ecX vaC6).snd = 0 := ⟨rfl, rfl, rfl⟩

/-- Membership in an inserted dictionary comes from the old dictionary or is
the inserted pair. -/
theorem mem_dictInsert {α : Type} {d : List (String × α)} {k : String}
    {v : α} {p : String × α} (hp : p ∈ dictInsert d k v) :
    p ∈ d ∨ p = (k, v) := by
  unfold dictInsert at hp
  split at hp
  · obtain ⟨q, hq, hqe⟩ := List.mem_map.1 hp
    by_cases h2 : (q.fst == k) = true
    · right
      rw [if_pos h2] at hqe
      exact hqe.symm
    · left
      rw [if_neg h2] at hqe
      exact hqe ▸ hq
  · rcases List.mem_append.1 hp with h1 | h1
    · exact Or.inl h1
    · right
      simpa using h1

/-- A property holding on all entries and on the inserted pair holds on all
entries of the inserted dictionary. -/
theorem dictInsert_forall {α : Type} {P : String × α → Prop}
    {d : List (String × α)} {k : String} {v : α}
    (h : ∀ p ∈ d, P p) (hv : P (k, v)) :
    ∀ p ∈ dictInsert d k v, P p := by
  intro p hp
  rcases mem_dictInsert hp with h1 | h1
  · exact h p h1
  · exact h1 ▸ hv

/-- A successful dictionary lookup exhibits a member pair. -/
theorem dictLookup_mem {α : Type} {d : List (String × α)} {k : String}
    {v : α} (h : dictLookup d k = some v) : (k, v) ∈ d := by
  unfold dictLookup at h
  cases hf : d.find? (fun p => p.fst == k) with
  | none => rw [hf] at h; cases h
  | some q =>
      rw [hf] at h
      have hs := List.find?_some hf
      have hm := List.mem_of_find?_eq_some hf
      have hv : q.snd = v := by
        simpa using h
      have hq : q = (k, v) := by
        obtain ⟨qf, qs⟩ := q
        simp only [beq_iff_eq] at hs
        simp only at hv
        rw [hs, hv]
      rw [hq] at hm
      exact hm

/-- Every entry of `param_dict` stores a parameter named by its key. -/
theorem paramDictOf_inv (fd : Funcdef) : PDInv (paramDictOf fd) := by
  unfold paramDictOf PDInv
  suffices h : ∀ (ps : List Param) (acc : List (String × Param)),
      (∀ p ∈ acc, (Prod.snd p).name = p.fst) →
      ∀ p ∈ ps.foldl (fun d p => dictInsert d p.name p) acc,
        (Prod.snd p).name = p.fst by
    exact h fd.params [] (by intro p hp; cases hp)
  intro ps
  induction ps with
  | nil => intro acc hacc; exact hacc
  | cons q qs ih =>
      intro acc hacc
      exact ih _ (dictInsert_forall hacc rfl)

/-- The keyword drain preserves the `keys_used` naming invariant and never
touches the result-parameter list. -/
theorem drain_spec (ec : ExecutionContext) (pd : List (String × Param))
    (va : VarArgs) (hpd : PDInv pd) :
    ∀ (l : List Arg) (st : BindState), KeysInv st.keysUsed →
      KeysInv (drain ec pd va l st).2.keysUsed ∧
      (drain ec pd va l st).2.resultParams = st.resultParams := by
  intro l
  induction l with
  | nil => intro st h; exact ⟨h, rfl⟩
  | cons hd tl ih =>
      obtain ⟨k?, a⟩ := hd
      cases k? with
      | none => intro st h; exact ⟨h, rfl⟩
      | some k =>
          intro st h
          simp only [drain]
          cases hpk : dictLookup pd k with
          | none => exact ih _ h
          | some keyParam =>
              cases hused : (dictLookup st.keysUsed k).isSome with
              | true => simp only [hused, if_true]; exact ih _ h
              | false =>
                  simp only [hused, Bool.false_eq_true, if_false]
                  refine ih _ ?_
                  refine dictInsert_forall h ?_
                  exact hpd _ (dictLookup_mem hpk)

/-- `finishParam` appends exactly the freshly built bound parameter and
preserves the `keys_used` naming invariant; it changes nothing else. -/
theorem finishParam_spec (st : BindState) (param : Param) (arg : LazyContext)
    (hk : KeysInv st.keysUsed) :
    (finishParam st param arg).resultParams = st.resultParams ++ [⟨param, arg⟩] ∧
    KeysInv (finishParam st param arg).keysUsed ∧
    (finishParam st param arg).diags = st.diags ∧
    (finishParam st param arg).stream = st.stream := by
  unfold finishParam
  cases arg with
  | unknown => exact ⟨rfl, hk, rfl, rfl⟩
  | known v => exact ⟨rfl, dictInsert_forall hk rfl, rfl, rfl⟩
  | tree s d => exact ⟨rfl, dictInsert_forall hk rfl, rfl, rfl⟩

/-- One main-loop iteration appends exactly one bound parameter, named after
the formal parameter being processed, and preserves the `keys_used` naming
invariant. -/
theorem processParam_spec (ec : ExecutionContext) (pd : List (String × Param))
    (va : VarArgs) (hpd : PDInv pd) (st : BindState) (param : Param)
    (hk : KeysInv st.keysUsed) :
    ∃ ep : ExecutedParam, ep.paramNode.name = param.name ∧
      (processParam ec pd va st param).resultParams = st.resultParams ++ [ep] ∧
      KeysInv (processParam ec pd va st param).keysUsed := by
  have hdr := drain_spec ec pd va hpd st.stream st hk
  rcases hd : drain ec pd va st.stream st with ⟨argOpt, st1⟩
  rw [hd] at hdr
  have hk1 : KeysInv st1.keysUsed := hdr.1
  have hr1 : st1.resultParams = st.resultParams := hdr.2
  simp only [processParam, hd]
  split
  next ep hlk =>
    exact ⟨ep, hk1 _ (dictLookup_mem hlk), by simp [hr1], hk1⟩
  next hlk =>
    split
    next h1 =>
      cases argOpt with
      | none =>
          obtain ⟨hfr, hfk, _, _⟩ := finishParam_spec st1 param
            (.known (.fakeSequence ec.evalId "tuple" [])) hk1
          refine ⟨⟨param, .known (.fakeSequence ec.evalId "tuple" [])⟩, rfl, ?_, hfk⟩
          rw [hfr, hr1]
      | some a =>
          rcases hcp : collectPositional st1.stream with ⟨more, rem⟩
          simp only [hcp]
          have hk1' : KeysInv ({ st1 with stream := rem } : BindState).keysUsed := hk1
          obtain ⟨hfr, hfk, _, _⟩ := finishParam_spec { st1 with stream := rem }
            param (.known (.fakeSequence ec.evalId "tuple" (a :: more))) hk1'
          refine ⟨⟨param, .known (.fakeSequence ec.evalId "tuple" (a :: more))⟩, rfl, ?_, hfk⟩
          rw [hfr]; simp [hr1]
    next h1 =>
      split
      next h2 =>
        have hk1' : KeysInv ({ st1 with nonMatchingKeys := [] } : BindState).keysUsed := hk1
        obtain ⟨hfr, hfk, _, _⟩ := finishParam_spec
          { st1 with nonMatchingKeys := [] } param
          (.known (.fakeDict ec.evalId st1.nonMatchingKeys)) hk1'
        refine ⟨⟨param, .known (.fakeDict ec.evalId st1.nonMatchingKeys)⟩, rfl, ?_, hfk⟩
        rw [hfr]; simp [hr1]
      next h2 =>
        cases argOpt with
        | some a =>
            obtain ⟨hfr, hfk, _, _⟩ := finishParam_spec st1 param a hk1
            refine ⟨⟨param, a⟩, rfl, ?_, hfk⟩
            rw [hfr, hr1]
        | none =>
            cases hdef : param.default with
            | some d =>
                simp only [hdef]
                obtain ⟨hfr, hfk, _, _⟩ := finishParam_spec st1 param
                  (.tree ec.defaultParamContext d) hk1
                refine ⟨⟨param, .tree ec.defaultParamContext d⟩, rfl, ?_, hfk⟩
                rw [hfr, hr1]
            | none =>
                simp only [hdef]
                cases hko : st1.keysOnly with
                | true =>
                    simp only [hko, if_true]
                    obtain ⟨hfr, hfk, _, _⟩ := finishParam_spec st1 param .unknown hk1
                    refine ⟨⟨param, .unknown⟩, rfl, ?_, hfk⟩
                    rw [hfr, hr1]
                | false =>
                    simp only [hko, Bool.false_eq_true, if_false]
                    refine ⟨⟨param, .unknown⟩, rfl, ?_, ?_⟩
                    · simp [finishParam, hr1]
                    · exact hk1

/-- Folding the main loop over a parameter list appends one bound parameter
per formal parameter, in order, with matching names. -/
theorem bindFold_spec (ec : ExecutionContext) (pd : List (String × Param))
    (va : VarArgs) (hpd : PDInv pd) :
    ∀ (ps : List Param) (st : BindState), KeysInv st.keysUsed →
      ∃ eps : List ExecutedParam,
        (ps.foldl (processParam ec pd va) st).resultParams =
          st.resultParams ++ eps ∧
        eps.map (fun e => e.paramNode.name) = ps.map Param.name ∧
        KeysInv (ps.foldl (processParam ec pd va) st).keysUsed := by
  intro ps
  induction ps with
  | nil => intro st h; exact ⟨[], by simp, rfl, h⟩
  | cons p ps ih =>
      intro st h
      obtain ⟨ep, hname, hres, hk2⟩ := processParam_spec ec pd va hpd st p h
      obtain ⟨eps, he1, he2, he3⟩ := ih (processParam ec pd va st p) hk2
      refine ⟨ep :: eps, ?_, ?_, he3⟩
      · rw [List.foldl_cons, he1, hres]
        simp
      · simp [he2, hname]

/-- A fold whose step only appends diagnostics in total only appends
diagnostics. -/
theorem diagsOnly_foldl {β : Type} (f : BindState → β → BindState)
    (P : Diag → Prop)
    (hf : ∀ st b, ∃ ds, f st b = { st with diags := st.diags ++ ds } ∧
      ∀ d ∈ ds, P d) :
    ∀ (l : List β) (st : BindState),
      ∃ ds, l.foldl f st = { st with diags := st.diags ++ ds } ∧
        ∀ d ∈ ds, P d := by
  intro l
  induction l with
  | nil =>
      intro st
      exact ⟨[], by simp, by intro d hd; cases hd⟩
  | cons b bs ih =>
      intro st
      obtain ⟨ds1, h1, hp1⟩ := hf st b
      obtain ⟨ds2, h2, hp2⟩ := ih (f st b)
      refine ⟨ds1 ++ ds2, ?_, ?_⟩
      · rw [List.foldl_cons, h2, h1]
        simp
      · intro d hd
        rcases List.mem_append.1 hd with h | h
        · exact hp1 d h
        · exact hp2 d h

/-- Every diagnostic emitted by `_add_argument_issue` carries the error name
it was invoked with. -/
theorem add_argument_issue_errorName (pc : Nat) (en : String)
    (lc : LazyContext) (m : String) :
    ∀ d ∈ add_argument_issue pc en lc m, d.errorName = en := by
  cases lc with
  | tree s data =>
      intro d hd
      simp only [add_argument_issue] at hd
      rcases List.mem_singleton.1 hd with h
      rw [h]
  | known v => intro d hd; cases hd
  | unknown => intro d hd; cases hd

/-- `_add_argument_issue` emits at most one diagnostic. -/
theorem add_argument_issue_length (pc : Nat) (en : String)
    (lc : LazyContext) (m : String) :
    (add_argument_issue pc en lc m).length ≤ 1 := by
  cases lc <;> simp [add_argument_issue]


/-- One consolidated too-few step only appends too-few diagnostics. -/
theorem consolidatedTooFewStep_spec (ec : ExecutionContext)
    (pd : List (String × Param)) (va : VarArgs) (st : BindState)
    (k : String) :
    ∃ ds, consolidatedTooFewStep ec pd va st k =
        { st with diags := st.diags ++ ds } ∧
      ∀ d ∈ ds, d.errorName = "type-error-too-few-arguments" := by
  unfold consolidatedTooFewStep
  cases hpk : dictLookup pd k with
  | none => exact ⟨[], by simp, by intro d hd; cases hd⟩
  | some param =>
      by_cases hc : (!(!st.nonMatchingKeys.isEmpty || st.hadMultipleValueError ||
          param.starCount != 0 || param.default.isSome)) = true
      · refine ⟨va.callingNodes.map (fun n =>
          ⟨ec.defaultParamContext, "type-error-too-few-arguments", n,
           error_argument_count ec.funcdef va.unpacked.length⟩), ?_, ?_⟩
        · simp [hc]
        · intro d hd
          obtain ⟨n, _, hn⟩ := List.mem_map.1 hd
          rw [← hn]
      · exact ⟨[], by simp [hc], by intro d hd; cases hd⟩

/-- The consolidated too-few pass only appends too-few diagnostics. -/
theorem finalizeTooFew_spec (ec : ExecutionContext)
    (pd : List (String × Param)) (va : VarArgs) (st : BindState) :
    ∃ ds, finalizeTooFew ec pd va st = { st with diags := st.diags ++ ds } ∧
      ∀ d ∈ ds, d.errorName = "type-error-too-few-arguments" := by
  unfold finalizeTooFew
  by_cases hko : st.keysOnly = true
  · rw [if_pos hko]
    exact diagsOnly_foldl _ _ (fun st k => consolidatedTooFewStep_spec ec pd va st k) _ st
  · rw [if_neg hko]
    exact ⟨[], by simp, by intro d hd; cases hd⟩

/-- The unexpected-keyword pass only appends keyword-argument diagnostics. -/
theorem finalizeNonMatching_spec (ec : ExecutionContext) (st : BindState) :
    ∃ ds, finalizeNonMatching ec st = { st with diags := st.diags ++ ds } ∧
      ∀ d ∈ ds, d.errorName = "type-error-keyword-argument" := by
  unfold finalizeNonMatching
  refine diagsOnly_foldl _ _ (fun st kv => ?_) _ st
  unfold nonMatchingStep
  exact ⟨_, rfl, add_argument_issue_errorName _ _ _ _⟩

/-- The too-many check appends exactly the `_add_argument_issue` output for
the first leftover when leftovers and calling nodes exist, else nothing. -/
theorem finalizeRemaining_spec (ec : ExecutionContext) (va : VarArgs)
    (st : BindState) :
    ∃ ds, finalizeRemaining ec va st = { st with diags := st.diags ++ ds } ∧
      ds = (match st.stream, va.callingNodes with
            | [], _ => []
            | _ :: _, [] => []
            | (_, lc) :: _, _ :: _ =>
                add_argument_issue ec.defaultParamContext
                  "type-error-too-many-arguments" lc
                  (error_argument_count ec.funcdef va.unpacked.length)) := by
  obtain ⟨unp, cns⟩ := va
  obtain ⟨stream, nmk, ku, ko, hmv, rp, dg⟩ := st
  cases stream with
  | nil => exact ⟨[], by simp [finalizeRemaining], rfl⟩
  | cons hd tl =>
      obtain ⟨k?, lc⟩ := hd
      cases cns with
      | nil => exact ⟨[], by simp [finalizeRemaining, List.isEmpty], rfl⟩
      | cons n ns => exact ⟨_, by simp [finalizeRemaining, List.isEmpty], rfl⟩

/-- `finalize` only appends diagnostics; in particular it preserves the
bound-parameter list, and the appended diagnostics decompose into the
too-few, keyword-argument and too-many portions. -/
theorem finalize_spec (ec : ExecutionContext) (pd : List (String × Param))
    (va : VarArgs) (st : BindState) :
    ∃ ds1 ds2 ds3,
      finalize ec pd va st = { st with diags := st.diags ++ ds1 ++ ds2 ++ ds3 } ∧
      (∀ d ∈ ds1, d.errorName = "type-error-too-few-arguments") ∧
      (∀ d ∈ ds2, d.errorName = "type-error-keyword-argument") ∧
      ds3 = (match st.stream, va.callingNodes with
            | [], _ => []
            | _ :: _, [] => []
            | (_, lc) :: _, _ :: _ =>
                add_argument_issue ec.defaultParamContext
                  "type-error-too-many-arguments" lc
                  (error_argument_count ec.funcdef va.unpacked.length)) := by
  unfold finalize
  obtain ⟨ds1, h1, hp1⟩ := finalizeTooFew_spec ec pd va st
  obtain ⟨ds2, h2, hp2⟩ := finalizeNonMatching_spec ec (finalizeTooFew ec pd va st)
  obtain ⟨ds3, h3, hp3⟩ := finalizeRemaining_spec ec va
    (finalizeNonMatching ec (finalizeTooFew ec pd va st))
  refine ⟨ds1, ds2, ds3, ?_, hp1, hp2, ?_⟩
  · rw [h3, h2, h1]
  · rw [hp3, h2, h1]

/-- C1: for every signature and every argument stream, `get_executed_params`
returns exactly one bound parameter per formal parameter, in the formal
parameter list's order (as witnessed by the name sequence), and — being a
total function of the embedded state machine — always completes without any
exception or error-return propagating out. -/
theorem C1_binder_exhaustive (ec : ExecutionContext) (va : VarArgs) :
    (get_executed_params ec va).fst.length = ec.funcdef.params.length ∧
    (get_executed_params ec va).fst.map (fun ep => ep.paramNode.name) =
      ec.funcdef.params.map Param.name := by
  have hpd := paramDictOf_inv ec.funcdef
  obtain ⟨eps, h1, h2, _⟩ := bindFold_spec ec (paramDictOf ec.funcdef) va hpd
    ec.funcdef.params (initState va) (by intro p hp; simp [initState] at hp)
  obtain ⟨ds1, ds2, ds3, hf, _, _, _⟩ :=
    finalize_spec ec (paramDictOf ec.funcdef) va (bindLoop ec va)
  have hres : (get_executed_params ec va).fst = eps := by
    show (finalize ec (paramDictOf ec.funcdef) va (bindLoop ec va)).resultParams = eps
    rw [hf]
    show (bindLoop ec va).resultParams = eps
    unfold bindLoop
    rw [h1]
    simp [initState]
  constructor
  · rw [hres]
    have h3 := congrArg List.length h2
    simpa using h3
  · rw [hres]
    exact h2

/-- `finishParam` never records diagnostics. -/
theorem finishParam_diags (st : BindState) (param : Param)
    (arg : LazyContext) : (finishParam st param arg).diags = st.diags := by
  unfold finishParam
  cases arg <;> rfl

/-- The keyword drain only appends multiple-values diagnostics. -/
theorem drain_diags (ec : ExecutionContext) (pd : List (String × Param))
    (va : VarArgs) :
    ∀ (l : List Arg) (st : BindState),
      ∃ ds, (drain ec pd va l st).2.diags = st.diags ++ ds ∧
        ∀ d ∈ ds, d.errorName = "type-error-multiple-values" := by
  intro l
  induction l with
  | nil => intro st; exact ⟨[], by simp [drain], by intro d hd; cases hd⟩
  | cons hd tl ih =>
      obtain ⟨k?, a⟩ := hd
      cases k? with
      | none => intro st; exact ⟨[], by simp [drain], by intro d hd; cases hd⟩
      | some k =>
          intro st
          simp only [drain]
          cases hpk : dictLookup pd k with
          | none => exact ih _
          | some keyParam =>
              cases hused : (dictLookup st.keysUsed k).isSome with
              | false =>
                  simp only [hused, Bool.false_eq_true, if_false]
                  exact ih _
              | true =>
                  simp only [hused, if_true]
                  obtain ⟨ds, hds, hp⟩ := ih
                    ({ st with
                        keysOnly := true,
                        hadMultipleValueError := true,
                        diags := st.diags ++ (va.callingNodes.map (fun n =>
                          ⟨ec.defaultParamContext, "type-error-multiple-values", n,
                           multiple_values_message ec.funcdef.name k⟩)) })
                  refine ⟨va.callingNodes.map (fun n =>
                      ⟨ec.defaultParamContext, "type-error-multiple-values", n,
                       multiple_values_message ec.funcdef.name k⟩) ++ ds, ?_, ?_⟩
                  · exact hds.trans (by simp)
                  · intro d hd2
                    rcases List.mem_append.1 hd2 with h | h
                    · obtain ⟨n, _, hn⟩ := List.mem_map.1 h
                      rw [← hn]
                    · exact hp d h

/-- One main-loop iteration only appends multiple-values or too-few
diagnostics. -/
theorem processParam_diags (ec : ExecutionContext)
    (pd : List (String × Param)) (va : VarArgs) (st : BindState)
    (param : Param) :
    ∃ ds, (processParam ec pd va st param).diags = st.diags ++ ds ∧
      ∀ d ∈ ds, d.errorName = "type-error-multiple-values" ∨
        d.errorName = "type-error-too-few-arguments" := by
  obtain ⟨ds0, hd0, hp0⟩ := drain_diags ec pd va st.stream st
  rcases hd : drain ec pd va st.stream st with ⟨argOpt, st1⟩
  rw [hd] at hd0
  have hd0' : st1.diags = st.diags ++ ds0 := hd0
  simp only [processParam, hd]
  split
  next ep hlk => exact ⟨ds0, hd0', fun d h => Or.inl (hp0 d h)⟩
  next hlk =>
    split
    next h1 =>
      cases argOpt with
      | none =>
          exact ⟨ds0, (finishParam_diags _ _ _).trans hd0',
            fun d h => Or.inl (hp0 d h)⟩
      | some a =>
          exact ⟨ds0, (finishParam_diags _ _ _).trans hd0',
            fun d h => Or.inl (hp0 d h)⟩
    next h1 =>
      split
      next h2 =>
        exact ⟨ds0, (finishParam_diags _ _ _).trans hd0',
          fun d h => Or.inl (hp0 d h)⟩
      next h2 =>
        cases argOpt with
        | some a =>
            exact ⟨ds0, (finishParam_diags _ _ _).trans hd0',
              fun d h => Or.inl (hp0 d h)⟩
        | none =>
            cases hdef : param.default with
            | some d =>
                simp only [hdef]
                exact ⟨ds0, (finishParam_diags _ _ _).trans hd0',
                  fun d h => Or.inl (hp0 d h)⟩
            | none =>
                simp only [hdef]
                cases hko : st1.keysOnly with
                | true =>
                    simp only [hko, if_true]
                    exact ⟨ds0, (finishParam_diags _ _ _).trans hd0',
                      fun d h => Or.inl (hp0 d h)⟩
                | false =>
                    simp only [hko, Bool.false_eq_true, if_false]
                    refine ⟨ds0 ++ va.callingNodes.map (fun n =>
                        ⟨ec.defaultParamContext, "type-error-too-few-arguments",
                         n, error_argument_count ec.funcdef va.unpacked.length⟩),
                      ?_, ?_⟩
                    · exact (finishParam_diags _ _ _).trans (by rw [hd0']; simp)
                    · intro d hd2
                      rcases List.mem_append.1 hd2 with h | h
                      · exact Or.inl (hp0 d h)
                      · right
                        obtain ⟨n, _, hn⟩ := List.mem_map.1 h
                        rw [← hn]

/-- The main loop as a whole only appends multiple-values or too-few
diagnostics. -/
theorem foldDiags (ec : ExecutionContext) (pd : List (String × Param))
    (va : VarArgs) :
    ∀ (ps : List Param) (st : BindState),
      ∃ ds, (ps.foldl (processParam ec pd va) st).diags = st.diags ++ ds ∧
        ∀ d ∈ ds, d.errorName = "type-error-multiple-values" ∨
          d.errorName = "type-error-too-few-arguments" := by
  intro ps
  induction ps with
  | nil => intro st; exact ⟨[], by simp, by intro d hd; cases hd⟩
  | cons p ps ih =>
      intro st
      obtain ⟨ds1, h1, hp1⟩ := processParam_diags ec pd va st p
      obtain ⟨ds2, h2, hp2⟩ := ih (processParam ec pd va st p)
      refine ⟨ds1 ++ ds2, ?_, ?_⟩
      · rw [List.foldl_cons, h2, h1]
        simp
      · intro d hd
        rcases List.mem_append.1 hd with h | h
        · exact hp1 d h
        · exact hp2 d h

/-- Every diagnostic recorded during the main loop is a multiple-values or a
too-few diagnostic. -/
theorem bindLoop_diags (ec : ExecutionContext) (va : VarArgs) :
    ∀ d ∈ (bindLoop ec va).diags,
      d.errorName = "type-error-multiple-values" ∨
      d.errorName = "type-error-too-few-arguments" := by
  obtain ⟨ds, hds, hp⟩ := foldDiags ec (paramDictOf ec.funcdef) va
    ec.funcdef.params (initState va)
  have h : (bindLoop ec va).diags = ds := by
    unfold bindLoop
    rw [hds]
    simp [initState]
  intro d hd
  rw [h] at hd
  exact hp d hd

/-- Characterization of the too-many-arguments diagnostics of a whole
binding pass: they are exactly the `_add_argument_issue` output for the
first leftover stream item, and only when leftovers and calling nodes both
exist. -/
theorem tooMany_filter_char (ec : ExecutionContext) (va : VarArgs) :
    (get_executed_params ec va).snd.filter
        (fun d => d.errorName == "type-error-too-many-arguments") =
      (match (bindLoop ec va).stream, va.callingNodes with
        | [], _ => []
        | _ :: _, [] => []
        | (_, lc) :: _, _ :: _ =>
            add_argument_issue ec.defaultParamContext
              "type-error-too-many-arguments" lc
              (error_argument_count ec.funcdef va.unpacked.length)) := by
  obtain ⟨ds1, ds2, ds3, hf, hp1, hp2, hp3⟩ :=
    finalize_spec ec (paramDictOf ec.funcdef) va (bindLoop ec va)
  show ((finalize ec (paramDictOf ec.funcdef) va (bindLoop ec va)).diags).filter
    (fun d => d.errorName == "type-error-too-many-arguments") = _
  rw [hf]
  show (((bindLoop ec va).diags ++ ds1 ++ ds2 ++ ds3).filter
    (fun d => d.errorName == "type-error-too-many-arguments")) = _
  rw [List.filter_append, List.filter_append, List.filter_append]
  have e0 : ((bindLoop ec va).diags).filter
      (fun d => d.errorName == "type-error-too-many-arguments") = [] := by
    rw [List.filter_eq_nil_iff]
    intro d hd
    rcases bindLoop_diags ec va d hd with h | h <;> simp [h]
  have e1 : ds1.filter
      (fun d => d.errorName == "type-error-too-many-arguments") = [] := by
    rw [List.filter_eq_nil_iff]
    intro d hd
    have h := hp1 d hd
    simp [h]
  have e2 : ds2.filter
      (fun d => d.errorName == "type-error-too-many-arguments") = [] := by
    rw [List.filter_eq_nil_iff]
    intro d hd
    have h := hp2 d hd
    simp [h]
  have e3 : ds3.filter
      (fun d => d.errorName == "type-error-too-many-arguments") = ds3 := by
    rw [List.filter_eq_self]
    intro d hd
    rw [hp3] at hd
    have h : d.errorName = "type-error-too-many-arguments" := by
      rcases hs : (bindLoop ec va).stream with _ | ⟨⟨k?, lc⟩, rest⟩
      · rw [hs] at hd
        cases hd
      · rw [hs] at hd
        rcases hn : va.callingNodes with _ | ⟨n, ns⟩
        · rw [hn] at hd
          cases hd
        · rw [hn] at hd
          exact add_argument_issue_errorName _ _ _ _ d hd
    simp [h]
  rw [e0, e1, e2, e3, hp3]
  simp

/-- C6 (amended): a too-many-arguments diagnostic is emitted exactly when
the stream has unconsumed items after the loop, the calling context exposes
concrete call nodes, AND the first leftover's lazy value is syntax-backed
(per `_add_argument_issue`); in that case it is the single diagnostic
produced by `_add_argument_issue` on the first leftover item (anchored
there), and no diagnostic is produced otherwise. -/
theorem C6_amended (ec : ExecutionContext) (va : VarArgs) :
    (get_executed_params ec va).snd.filter
        (fun d => d.errorName == "type-error-too-many-arguments") =
      (match (bindLoop ec va).stream, va.callingNodes with
        | [], _ => []
        | _ :: _, [] => []
        | (_, lc) :: _, _ :: _ =>
            add_argument_issue ec.defaultParamContext
              "type-error-too-many-arguments" lc
              (error_argument_count ec.funcdef va.unpacked.length)) :=
  tooMany_filter_char ec va

/-- C3 (amended): at most one too-many-arguments diagnostic is emitted per
binding pass, but consolidated too-few-arguments diagnostics are emitted
once per missing required parameter and per calling node, so several can be
emitted in a single pass (two in the `f(x=1)` against `def f(x, y, z)`
scenario). -/
theorem C3_amended :
    (∀ (ec : ExecutionContext) (va : VarArgs),
      diagCount "type-error-too-many-arguments"
        (get_executed_params ec va).snd ≤ 1) ∧
    diagCount "type-error-too-few-arguments"
      (get_executed_params ecXYZ vaC3).snd = 2 := by
  constructor
  · intro ec va
    unfold diagCount
    rw [tooMany_filter_char]
    rcases hs : (bindLoop ec va).stream with _ | ⟨⟨k?, lc⟩, rest⟩
    · exact Nat.zero_le 1
    · rcases hn : va.callingNodes with _ | ⟨n, ns⟩
      · exact Nat.zero_le 1
      · exact add_argument_issue_length _ _ _ _
  · rfl

/-- C2 (amended): when a formal parameter already has an entry in
`keys_used`, the binder binds that entry and advances, but the unnamed item
that terminated the keyword drain has been consumed and discarded — it is
NOT pushed back onto the stream (the drain stops at an unnamed item by
taking it off the stream) and is no longer available to a later
parameter. -/
theorem C2_amended (ec : ExecutionContext) (pd : List (String × Param))
    (va : VarArgs) (st st' : BindState) (a : LazyContext) (param : Param)
    (ep : ExecutedParam)
    (hdrain : drain ec pd va st.stream st = (some a, st'))
    (hbound : dictLookup st'.keysUsed param.name = some ep) :
    processParam ec pd va st param =
      { st' with resultParams := st'.resultParams ++ [ep] } ∧
    ∀ (rest : List Arg) (st0 : BindState),
      drain ec pd va ((none, a) :: rest) st0 =
        (some a, { st0 with stream := rest }) := by
  constructor
  · simp only [processParam, hdrain, hbound]
  · intro rest st0
    rfl

/-- C2 witness: a concrete run of the amended claim. -/
theorem C2_amended_witness :
    drain ecXY (paramDictOf fdXY) vaC2 c2wSt.stream c2wSt =
      (some (baseArg 2), { c2wSt with stream := [] }) ∧
    dictLookup ({ c2wSt with stream := ([] : List Arg) } : BindState).keysUsed
      "x" = some c2wEp ∧
    processParam ecXY (paramDictOf fdXY) vaC2 c2wSt ⟨"x", 0, none⟩ =
      { ({ c2wSt with stream := ([] : List Arg) } : BindState) with
          resultParams := [c2wEp] } :=
  ⟨rfl, rfl,
   (C2_amended ecXY (paramDictOf fdXY) vaC2 c2wSt
      { c2wSt with stream := [] } (baseArg 2) ⟨"x", 0, none⟩ c2wEp rfl rfl).1⟩

/-- C4 (amended): a `VAR_POSITIONAL` (`*args`) or `VAR_KEYWORD` (`**kwargs`)
parameter binds a `FromKnownValue` sequence/mapping whenever its name was
NOT bound during keyword draining; when the stream contained a named
argument whose name equals the variadic parameter's name, the recorded
`keys_used` entry — a raw pass-through of the argument's lazy value — is
bound instead. -/
theorem C4_amended (ec : ExecutionContext) (pd : List (String × Param))
    (va : VarArgs) (st st' : BindState) (argOpt : Option LazyContext)
    (param : Param)
    (hdrain : drain ec pd va st.stream st = (argOpt, st')) :
    (dictLookup st'.keysUsed param.name = none → param.starCount = 1 →
      ∃ items, (processParam ec pd va st param).resultParams =
        st'.resultParams ++
          [⟨param, .known (.fakeSequence ec.evalId "tuple" items)⟩]) ∧
    (dictLookup st'.keysUsed param.name = none → param.starCount = 2 →
      (processParam ec pd va st param).resultParams =
        st'.resultParams ++
          [⟨param, .known (.fakeDict ec.evalId st'.nonMatchingKeys)⟩]) ∧
    (∀ ep, dictLookup st'.keysUsed param.name = some ep →
      (processParam ec pd va st param).resultParams =
        st'.resultParams ++ [ep]) := by
  refine ⟨?_, ?_, ?_⟩
  · intro hmiss hstar
    cases argOpt with
    | none =>
        exact ⟨[], by simp [processParam, hdrain, hmiss, hstar, finishParam]⟩
    | some a =>
        refine ⟨a :: (collectPositional st'.stream).1, ?_⟩
        simp [processParam, hdrain, hmiss, hstar, finishParam]
  · intro hmiss hstar
    simp [processParam, hdrain, hmiss, hstar, finishParam]
  · intro ep hb
    simp [processParam, hdrain, hb]

/-- C4 witness: a concrete run of the amended claim on a purely positional
stream. -/
theorem C4_amended_witness :
    drain ecStar (paramDictOf fdStar) vaPos1 (initState vaPos1).stream
      (initState vaPos1) =
      (some (baseArg 1), { initState vaPos1 with stream := [] }) ∧
    dictLookup ({ initState vaPos1 with stream := ([] : List Arg) } :
      BindState).keysUsed "args" = none ∧
    (⟨"args", 1, none⟩ : Param).starCount = 1 ∧
    (∃ items,
      (processParam ecStar (paramDictOf fdStar) vaPos1 (initState vaPos1)
        ⟨"args", 1, none⟩).resultParams =
      ({ initState vaPos1 with stream := ([] : List Arg) } :
        BindState).resultParams ++
        [⟨⟨"args", 1, none⟩,
          .known (.fakeSequence ecStar.evalId "tuple" items)⟩]) :=
  ⟨rfl, rfl, rfl,
   (C4_amended ecStar (paramDictOf fdStar) vaPos1 (initState vaPos1)
      { initState vaPos1 with stream := [] } (some (baseArg 1))
      ⟨"args", 1, none⟩ rfl).1 rfl rfl⟩

/-- C7: for a plain (non-variadic) parameter with no positional item
available and no keyword binding: with a default expression it binds
`FromSyntax(default_param_context, defaultExpr)` — the scope the function
was defined in, not the calling scope — with no diagnostic; without a
default it binds `Unknown`, and the immediate too-few diagnostic (one per
calling node) is emitted exactly when keyword mode has not been entered. -/
theorem C7_default_fallback (ec : ExecutionContext)
    (pd : List (String × Param)) (va : VarArgs) (st st' : BindState)
    (param : Param)
    (hdrain : drain ec pd va st.stream st = (none, st'))
    (hmiss : dictLookup st'.keysUsed param.name = none)
    (hstar : param.starCount = 0) :
    (∀ d, param.default = some d →
      (processParam ec pd va st param).resultParams =
        st'.resultParams ++ [⟨param, .tree ec.defaultParamContext d⟩] ∧
      (processParam ec pd va st param).diags = st'.diags) ∧
    (param.default = none →
      (processParam ec pd va st param).resultParams =
        st'.resultParams ++ [⟨param, .unknown⟩] ∧
      (processParam ec pd va st param).diags = st'.diags ++
        (if st'.keysOnly then [] else va.callingNodes.map (fun n =>
          ⟨ec.defaultParamContext, "type-error-too-few-arguments", n,
           error_argument_count ec.funcdef va.unpacked.length⟩))) := by
  constructor
  · intro d hdef
    constructor
    · simp [processParam, hdrain, hmiss, hstar, hdef, finishParam]
    · simp [processParam, hdrain, hmiss, hstar, hdef, finishParam]
  · intro hdef
    cases hko : st'.keysOnly with
    | true =>
        constructor
        · simp [processParam, hdrain, hmiss, hstar, hdef, hko, finishParam]
        · simp [processParam, hdrain, hmiss, hstar, hdef, hko, finishParam]
    | false =>
        constructor
        · simp [processParam, hdrain, hmiss, hstar, hdef, hko, finishParam]
        · simp [processParam, hdrain, hmiss, hstar, hdef, hko, finishParam]

/-- C7 witness: a concrete run for both the defaulted and the bare
parameter, on the empty stream with one calling node. -/
theorem C7_default_fallback_witness :
    drain ecXY (paramDictOf fdXY) vaNode (initState vaNode).stream
      (initState vaNode) = (none, { initState vaNode with stream := [] }) ∧
    dictLookup ({ initState vaNode with stream := ([] : List Arg) } :
      BindState).keysUsed "y" = none ∧
    (⟨"y", 0, some defaultNode⟩ : Param).starCount = 0 ∧
    (⟨"y", 0, some defaultNode⟩ : Param).default = some defaultNode ∧
    (processParam ecXY (paramDictOf fdXY) vaNode (initState vaNode)
        ⟨"y", 0, some defaultNode⟩).resultParams =
      ({ initState vaNode with stream := ([] : List Arg) } :
        BindState).resultParams ++
        [⟨⟨"y", 0, some defaultNode⟩,
          .tree ecXY.defaultParamContext defaultNode⟩] :=
  ⟨rfl, rfl, rfl, rfl,
   ((C7_default_fallback ecXY (paramDictOf fdXY) vaNode (initState vaNode)
      { initState vaNode with stream := [] } ⟨"y", 0, some defaultNode⟩
      rfl rfl rfl).1 defaultNode rfl).1⟩

/-- C8: `matches_signature` is true unconditionally for a variadic
parameter; true whenever the annotation set is empty (unavailable); and
otherwise true exactly when some class of the hint-free inferred argument
value is a subclass of some annotation class (an existential, not a
universal, match). -/
theorem C8_matches_signature_cases (inferNoHints : LazyContext → List Nat)
    (inferAnnotations : Param → List Nat) (isSubClassOf : Nat → Nat → Bool)
    (ep : ExecutedParam) :
    (ep.paramNode.starCount ≠ 0 →
      ExecutedParam.matches_signature inferNoHints inferAnnotations
        isSubClassOf ep = true) ∧
    (ep.paramNode.starCount = 0 → inferAnnotations ep.paramNode = [] →
      ExecutedParam.matches_signature inferNoHints inferAnnotations
        isSubClassOf ep = true) ∧
    (ep.paramNode.starCount = 0 → inferAnnotations ep.paramNode ≠ [] →
      (ExecutedParam.matches_signature inferNoHints inferAnnotations
          isSubClassOf ep = true ↔
        ∃ c1 ∈ inferNoHints ep.lazyContext,
          ∃ c2 ∈ inferAnnotations ep.paramNode,
            isSubClassOf c1 c2 = true)) := by
  unfold ExecutedParam.matches_signature
  refine ⟨?_, ?_, ?_⟩
  · intro h
    have hb : (ep.paramNode.starCount != 0) = true := by
      simpa [bne_iff_ne] using h
    simp [hb]
  · intro h0 hann
    have hb : (ep.paramNode.starCount != 0) = false := by
      simp [h0]
    simp [hb, hann]
  · intro h0 hann
    have hb : (ep.paramNode.starCount != 0) = false := by
      simp [h0]
    have hne : (inferAnnotations ep.paramNode).isEmpty = false := by
      cases hA : inferAnnotations ep.paramNode with
      | nil => exact absurd hA hann
      | cons x xs => rfl
    simp [hb, hne, List.any_eq_true]

/-- C8 witness: a concrete run through the existential branch. -/
theorem C8_matches_signature_witness :
    (⟨⟨"x", 0, none⟩, baseArg 1⟩ : ExecutedParam).paramNode.starCount = 0 ∧
    c8Annots (⟨⟨"x", 0, none⟩, baseArg 1⟩ :
      ExecutedParam).paramNode ≠ [] ∧
    (ExecutedParam.matches_signature c8InferNoHints c8Annots c8Sub
        ⟨⟨"x", 0, none⟩, baseArg 1⟩ = true ↔
      ∃ c1 ∈ c8InferNoHints (baseArg 1),
        ∃ c2 ∈ c8Annots (⟨"x", 0, none⟩ : Param),
          c8Sub c1 c2 = true) :=
  ⟨rfl, by decide,
   (C8_matches_signature_cases c8InferNoHints c8Annots c8Sub
      ⟨⟨"x", 0, none⟩, baseArg 1⟩).2.2 rfl (by decide)⟩

/-- C9: `create_default_params` produces one bound parameter per formal
parameter in order — an empty `FromKnownValue` sequence for
`VAR_POSITIONAL`, an empty `FromKnownValue` mapping for `VAR_KEYWORD`,
`FromSyntax` over the default expression when a default exists, and
`Unknown` otherwise — and this path emits zero diagnostics regardless of
signature shape. -/
theorem C9_default_synthesizer (ec : ExecutionContext) (fd : Funcdef) :
    (create_default_params ec fd).snd = [] ∧
    (create_default_params ec fd).fst.length = fd.params.length ∧
    ∀ (i : Nat) (p : Param), fd.params.get? i = some p →
      (create_default_params ec fd).fst.get? i = some
        ⟨p, if p.starCount = 1 then .known (.fakeSequence ec.evalId "tuple" [])
            else if p.starCount = 2 then .known (.fakeDict ec.evalId [])
            else match p.default with
                 | some d => .tree ec.parentContext d
                 | none => .unknown⟩ := by
  refine ⟨rfl, by simp [create_default_params], ?_⟩
  intro i p hp
  show (fd.params.map (create_default_param ec)).get? i = _
  rw [List.get?_map, hp]
  simp only [Option.map_some']
  congr 1
  unfold create_default_param
  by_cases h1 : p.starCount = 1
  · simp [h1]
  · by_cases h2 : p.starCount = 2
    · simp [h1, h2]
    · simp [h1, h2]
      cases hd : p.default <;> simp

/-- C9 witness: the `*args` slot of a mixed signature. -/
theorem C9_default_synthesizer_witness :
    fdMix.params.get? 1 = some ⟨"args", 1, none⟩ ∧
    (create_default_params ecStar fdMix).fst.get? 1 = some
      ⟨⟨"args", 1, none⟩,
       .known (.fakeSequence ecStar.evalId "tuple" [])⟩ :=
  ⟨rfl, (C9_default_synthesizer ecStar fdMix).2.2 1 ⟨"args", 1, none⟩ rfl⟩

/-- C10: an unexpected-keyword or too-many-arguments diagnostic is emitted
only when the offending argument's lazy value is syntax-backed
(`LazyTreeContext`): `_add_argument_issue` emits nothing on known-value or
unknown lazy contexts; concretely, binding `[q=1, unnamed 2, unnamed 3]`
against `def f(x)` with a known-value orphan keyword and a known-value
leftover emits no diagnostic at all even though a concrete calling node
exists. -/
theorem C10_syntax_backed_gating :
    (∀ (pc : Nat) (en : String) (lc : LazyContext) (m : String),
      lc.isTreeBacked = false → add_argument_issue pc en lc m = []) ∧
    vaC10.callingNodes.length = 1 ∧
    (get_executed_params ecX vaC10).snd = [] := by
  refine ⟨?_, rfl, rfl⟩
  intro pc en lc m h
  cases lc with
  | tree s d => simp [LazyContext.isTreeBacked] at h
  | known v => rfl
  | unknown => rfl

/-- C10 witness: the gate applied to the unknown lazy context. -/
theorem C10_syntax_backed_gating_witness :
    (LazyContext.unknown).isTreeBacked = false ∧
    add_argument_issue 0 "type-error-keyword-argument" .unknown "msg" = [] :=
  ⟨rfl, C10_syntax_backed_gating.1 0 "type-error-keyword-argument"
    .unknown "msg" rfl⟩
